import Mathlib

/-!
Shallow embedding of the HyperRelKG repository core
(`src/loops/old_loops.py`, `src/models/hyper_gcn.py`,
`src/models/old_gnn_layer.py`) together with theorems settling the
specification claims about it.

Conventions: machine floats appearing in the normalization helper are
modelled exactly (the only values that arise are square roots of
rationals, plus IEEE infinity); embeddings are rational-valued; Python
exceptions are modelled with `Except`.
-/

/-! ### Training loop (`src/loops/old_loops.py`, `training_loop_gcn`) -/

/-- The metric dictionary returned by the external validation benchmark
(`val_testbench()['metrics']`). -/
structure Metrics where
  hitsAt1 : ℚ
  hitsAt3 : ℚ
  hitsAt5 : ℚ
  hitsAt10 : ℚ
  mrr : ℚ
  mr : ℚ
  deriving DecidableEq, Repr

/-- Parameters of `training_loop_gcn` that the claims depend on.
`numBatches` is the number of batches the external sampler yields per
epoch; `hasScheduler` models `scheduler is not None`. -/
structure LoopParams where
  epochs : ℕ
  evalEvery : ℕ
  qualifierAware : Bool
  earlyStopping : Option ℕ
  hasScheduler : Bool
  numBatches : ℕ
  deriving DecidableEq, Repr

/-- The mutable state accumulated by `training_loop_gcn`: the six
validation-metric histories, plus counters for completed optimizer
steps, scheduler steps and epochs whose batch loop ran. -/
structure LoopState where
  validAcc : List ℚ
  validMrr : List ℚ
  validMr : List ℚ
  validHits3 : List ℚ
  validHits5 : List ℚ
  validHits10 : List ℚ
  gradSteps : ℕ
  schedulerSteps : ℕ
  epochsRun : ℕ
  deriving DecidableEq, Repr

/-- Runtime failures of the loop.  `unboundLocal g` models Python's
`UnboundLocalError` on reading the never-assigned local `_quals`
(line 81 of `old_loops.py`), with `g` the number of optimizer steps
completed before the failure. -/
inductive LoopError where
  | unboundLocal (gradStepsDone : ℕ)
  deriving DecidableEq, Repr

/-- Initial state at the top of `training_loop_gcn`: all histories
empty, no steps taken. -/
def initState : LoopState :=
  { validAcc := [], validMrr := [], validMr := [], validHits3 := []
    validHits5 := [], validHits10 := [], gradSteps := 0
    schedulerSteps := 0, epochsRun := 0 }

/-- The inner batch loop (`for batch in tqdm(trn_dl)`).  Each batch:
zero gradients, unpack, and only when `qualifier_aware` assign the
local `_quals`; the forward call `model(_sub, _rel, _quals)` then reads
`_quals`, which raises `UnboundLocalError` when it was never assigned.
Otherwise loss/backward/clip/`opt.step()` complete, incrementing the
count `g` of completed gradient steps. -/
def runBatches (qualifierAware : Bool) : ℕ → ℕ → Except LoopError ℕ
  | 0, g => .ok g
  | n + 1, g =>
      match (if qualifierAware then some () else none : Option Unit) with
      | none => .error (.unboundLocal g)
      | some _ => runBatches qualifierAware n (g + 1)

/-- Python slice `valid_mrr[-early_stopping:]`: the last `k` entries,
except that for `k = 0` Python's `l[-0:]` is the whole list. -/
def lastSlice (k : ℕ) (l : List ℚ) : List ℚ :=
  if k = 0 then l else l.drop (l.length - k)

/-- `np.argmax` over a rational list: index of the first occurrence of
the maximum (0 on the empty list, which `np.argmax` rejects; the loop
only applies it to nonempty histories). -/
def argmaxFirst (l : List ℚ) : ℕ :=
  (List.range l.length).foldl
    (fun best i => if l.getD best 0 < l.getD i 0 then i else best) 0

/-- The early-stopping test of line 133:
`early_stopping is not None and len(valid_mrr) >= early_stopping and
np.argmax(valid_mrr[-early_stopping:]) == 0`. -/
def stopCheck (earlyStopping : Option ℕ) (mrrHist : List ℚ) : Bool :=
  match earlyStopping with
  | none => false
  | some es => decide (es ≤ mrrHist.length ∧ argmaxFirst (lastSlice es mrrHist) = 0)

/-- Lines 101–113: extract the six metrics from the benchmark summary
and append each to its history. -/
def appendMetrics (st : LoopState) (m : Metrics) : LoopState :=
  { st with
    validAcc := st.validAcc ++ [m.hitsAt1]
    validMrr := st.validMrr ++ [m.mrr]
    validMr := st.validMr ++ [m.mr]
    validHits3 := st.validHits3 ++ [m.hitsAt3]
    validHits5 := st.validHits5 ++ [m.hitsAt5]
    validHits10 := st.validHits10 ++ [m.hitsAt10] }

/-- Lines 142–143: `if scheduler is not None: scheduler.step()`. -/
def schedStep (hasScheduler : Bool) (st : LoopState) : LoopState :=
  if hasScheduler then { st with schedulerSteps := st.schedulerSteps + 1 } else st

/-- The state after a completed batch loop that left the optimizer-step
count at `g`: one more epoch run. -/
def afterBatches (st : LoopState) (g : ℕ) : LoopState :=
  { st with gradSteps := g, epochsRun := st.epochsRun + 1 }

/-- The part of an epoch after the batch loop (lines 94–143).  `seq n`
is the metric summary the external benchmark returns on its `n`-th
invocation (the invocation count is the current history length).
When `e % eval_every == 0 and e >= 1`, it invokes the benchmark
(under `torch.no_grad()`), appends the metrics and tests early
stopping — `break` (second component `true`) skips the scheduler step
of that epoch.  Otherwise it steps the scheduler. -/
def epochTail (p : LoopParams) (seq : ℕ → Metrics) (e : ℕ) (st : LoopState)
    (g : ℕ) : LoopState × Bool :=
  if e % p.evalEvery = 0 ∧ 1 ≤ e then
    if stopCheck p.earlyStopping
        (appendMetrics (afterBatches st g)
          (seq (afterBatches st g).validMrr.length)).validMrr then
      (appendMetrics (afterBatches st g)
        (seq (afterBatches st g).validMrr.length), true)
    else
      (schedStep p.hasScheduler
        (appendMetrics (afterBatches st g)
          (seq (afterBatches st g).validMrr.length)), false)
  else
    (schedStep p.hasScheduler (afterBatches st g), false)

/-- One iteration of the epoch loop: the batch loop, then the tail
above; a batch-loop error propagates. -/
def runEpoch (p : LoopParams) (seq : ℕ → Metrics) (e : ℕ) (st : LoopState) :
    Except LoopError (LoopState × Bool) :=
  match runBatches p.qualifierAware p.numBatches st.gradSteps with
  | .error err => .error err
  | .ok g => .ok (epochTail p seq e st g)

/-- The epoch recursion `for e in range(1, epochs + 1)`, with `fuel`
epochs left to run, threading the state; a `break` returns the partial
state normally. -/
def loopGo (p : LoopParams) (seq : ℕ → Metrics) :
    ℕ → ℕ → LoopState → Except LoopError LoopState
  | 0, _, st => .ok st
  | fuel + 1, e, st =>
      match runEpoch p seq e st with
      | .error err => .error err
      | .ok (st', true) => .ok st'
      | .ok (st', false) => loopGo p seq fuel (e + 1) st'

/-- `training_loop_gcn`: run epochs `1, …, epochs`, returning the
accumulated histories (inside the final state), or the propagated
runtime error. -/
def training_loop_gcn (p : LoopParams) (seq : ℕ → Metrics) :
    Except LoopError LoopState :=
  loopGo p seq p.epochs 1 initState

/-! ### Composition operator (`old_gnn_layer.py`, `comp_func`) -/

/-- The error taxonomy's name for the failure `comp_func` raises on an
unknown operator selector (the Python code raises the built-in
`NotImplementedError`; the spec calls it `UnsupportedOperatorError`). -/
inductive CompError where
  | unsupportedOperator
  deriving DecidableEq, Repr

/-- Modelled from the spec: `ccorr` lives in `utils/utils_gcn.py`,
outside `src/`.  Circular cross-correlation of two equal-length
vectors, `(a ⋆ b)[k] = Σ_i a[i] · b[(i + k) mod n]`, the real-valued
result of the frequency-domain computation the spec describes. -/
def ccorr (a b : List ℚ) : List ℚ :=
  (List.range a.length).map fun k =>
    ∑ i ∈ Finset.range a.length, a.getD i 0 * b.getD ((i + k) % a.length) 0

/-- Modelled from the spec: `rotate` lives in `utils/utils_gcn.py`,
outside `src/`.  Both vectors are concatenations of real/imaginary
halves; the entity phase is advanced by the relation phase (complex
multiplication) and the halves recombined. -/
def rotate (a b : List ℚ) : List ℚ :=
  let n := a.length / 2
  let aRe := a.take n
  let aIm := a.drop n
  let bRe := b.take n
  let bIm := b.drop n
  let re := List.zipWith (fun u v => u - v)
    (List.zipWith (fun u v => u * v) aRe bRe)
    (List.zipWith (fun u v => u * v) aIm bIm)
  let im := List.zipWith (fun u v => u + v)
    (List.zipWith (fun u v => u * v) aRe bIm)
    (List.zipWith (fun u v => u * v) aIm bRe)
  re ++ im

/-- `CompGCNConv.comp_func` (lines 289–304): dispatch on the operator
selector `opn`; the four supported selectors are `corr`, `sub`,
`mult`, `rotate`; anything else raises. -/
def comp_func (opn : String) (ent_embed rel_embed : List ℚ) :
    Except CompError (List ℚ) :=
  if opn = "corr" then .ok (ccorr ent_embed rel_embed)
  else if opn = "sub" then .ok (List.zipWith (fun u v => u - v) ent_embed rel_embed)
  else if opn = "mult" then .ok (List.zipWith (fun u v => u * v) ent_embed rel_embed)
  else if opn = "rotate" then .ok (rotate ent_embed rel_embed)
  else .error CompError.unsupportedOperator

/-! ### Grouped sum and qualifier coalescing (`combine_quals`) -/

/-- `torch_scatter.scatter_add(src, index, dim=0, dim_size)` on a
sequence of `n` rows: output row `t` (for `t < dimSize`) is the sum of
the source rows whose index equals `t`; rows with no contribution stay
zero. -/
def scatter_add {M : Type} [AddCommMonoid M]
    (src : ℕ → M) (index : ℕ → ℕ) (n dimSize : ℕ) : ℕ → M :=
  fun t => if t < dimSize then ∑ i ∈ Finset.range n, if index i = t then src i else 0
           else 0

/-- `CompGCNConv.combine_quals` (lines 244–261), generic in the
composition operator `φ` (the model's `self.comp_func` at its fixed,
supported selector).  Rows are values of an additive commutative
monoid `M`; `nQuals` qualifier rows, `nEdges` edge rows (the
`dim_size = rel_embed.shape[0]` of the scatter).  In `out` mode the
head embedding is composed directly with the indexed qualifier
relation; otherwise each (qualifier entity, qualifier relation) pair
is composed and the compositions sharing a parent-triple index are
summed. -/
def combine_quals {M : Type} [AddCommMonoid M] (φ : M → M → M)
    (mode : String) (x_j ent_embed rel_embed : ℕ → M)
    (ent_index rel_index quals_index : ℕ → ℕ) (nQuals nEdges : ℕ) : ℕ → M :=
  let qualifier_emb_rel := fun i => rel_embed (rel_index i)
  if mode = "out" then
    fun i => φ (x_j i) (qualifier_emb_rel i)
  else
    let qualifier_emb_ent := fun i => ent_embed (ent_index i)
    let qual_embeddings := fun i => φ (qualifier_emb_ent i) (qualifier_emb_rel i)
    scatter_add qual_embeddings quals_index nQuals nEdges

/-! ### Degree normalization (`compute_norm`) -/

/-- Exact model of the machine floats occurring in `compute_norm`:
the only values arising there are square roots of nonnegative
rationals, plus IEEE `+inf` (from `0.0 ** -0.5`).  `fin sq` denotes
the nonnegative real `√sq`; `inf` denotes `float('inf')`.  No `NaN`
constructor is needed: `0 · ∞` never occurs because every infinity is
remapped to zero before any multiplication. -/
inductive NormVal where
  | fin (sq : ℚ)
  | inf
  deriving DecidableEq, Repr

/-- Multiplication of the values above: `√a · √b = √(a·b)`.  The
infinite cases are unreachable in `compute_norm` (post-remap all
factors are finite). -/
def NormVal.mul : NormVal → NormVal → NormVal
  | .fin a, .fin b => .fin (a * b)
  | _, _ => .inf

/-- `deg.pow(-0.5)` entrywise: `d ** -0.5 = √(1/d)` for `d > 0`, and
`float('inf')` for `d = 0`. -/
def powNegHalf (d : ℕ) : NormVal :=
  if d = 0 then .inf else .fin (1 / (d : ℚ))

/-- `deg_inv[deg_inv == float('inf')] = 0` (line 325). -/
def remapInf : NormVal → NormVal
  | .inf => .fin 0
  | v => v

/-- `CompGCNConv.compute_norm` (lines 312–328).  `row`/`col` are the
two rows of the edge index; `deg` counts, per entity, the edges having
it as head (`scatter_add` of a ones vector over `row`, size
`num_ent`); the per-edge weight is
`deg_inv[row] * edge_weight * deg_inv[col]` with unit edge weights. -/
def compute_norm (row col : List ℕ) (num_ent : ℕ) : List NormVal :=
  let deg : ℕ → ℕ := fun v => if v < num_ent then row.count v else 0
  let deg_inv : ℕ → NormVal := fun v => powNegHalf (deg v)
  let deg_inv_fixed : ℕ → NormVal := fun v => remapInf (deg_inv v)
  (List.zip row col).map fun rc =>
    NormVal.mul (NormVal.mul (deg_inv_fixed rc.1) (.fin 1)) (deg_inv_fixed rc.2)

/-! ### Combine stage of the convolution forward (lines 169–173) -/

/-- `torch.nn.Dropout(p)` on a rational-valued feature vector: in
training mode entries selected by the Bernoulli `mask` are zeroed and
the rest rescaled by `1/(1-p)`; in evaluation mode it is the
identity. -/
def dropoutQ (p : ℚ) (training : Bool) (mask : ℕ → Bool) (x : ℕ → ℚ) : ℕ → ℚ :=
  if training then (fun i => if mask i then 0 else x i / (1 - p)) else x

/-- Lines 169–173 of `CompGCNConv.forward`:
`out = drop(in_res)*(1/3) + drop(out_res)*(1/3) + loop_res*(1/3)`,
then `out = bn(out)`, then `act(out)`.  `bn` and `act` are the layer's
normalization transform and nonlinearity; `mIn`/`mOut` are the dropout
masks of the two `drop` applications. -/
def conv_combine (gcn_drop : ℚ) (training : Bool) (mIn mOut : ℕ → Bool)
    (bn act : (ℕ → ℚ) → (ℕ → ℚ)) (in_res out_res loop_res : ℕ → ℚ) : ℕ → ℚ :=
  let out := fun i =>
    dropoutQ gcn_drop training mIn in_res i * (1/3) +
    dropoutQ gcn_drop training mOut out_res i * (1/3) +
    loop_res i * (1/3)
  act (bn out)

/-! ### `both`-propagation edge synthesis (`CompGCNConv.forward`, lines 89–114) -/

/-- The graph tensors handed to `CompGCNConv.forward`: the two rows of
`edge_index` (length `2·E`, forward half then inverse half), the edge
types, and the three rows of the qualifier tensor `quals`
(length `2·Q`, forward half then inverse half): qualifier relation
ids (`quals[0]`), qualifier entity ids (`quals[1]`) and parent-triple
indices (`quals[2]`, pointers into the corresponding edge half). -/
structure ConvInput where
  edgeRow : List ℕ
  edgeCol : List ℕ
  edgeType : List ℕ
  qualRel : List ℕ
  qualEnt : List ℕ
  qualParent : List ℕ
  deriving DecidableEq, Repr

/-- The edge data the `both` branch constructs before propagation. -/
structure BothEdges where
  inIndexRow : List ℕ
  inIndexCol : List ℕ
  outIndexRow : List ℕ
  outIndexCol : List ℕ
  inType : List ℕ
  outType : List ℕ
  bothObjIn : List ℕ
  bothObjOut : List ℕ
  tripRelIn : List ℕ
  tripRelOut : List ℕ
  deriving DecidableEq, Repr

/-- Lines 89–114 of `CompGCNConv.forward` under `prop_type == "both"`:
`in_index = (qual entity, subject)`, `out_index = (subject, qual
entity)` (both built from the forward-half parent indices), the edge
types become the qualifier relation ids (`+ num_rels` on the inverse
half), `both_obj_in`/`both_obj_out` carry `edge_index[1]` at the forward
half's and inverse half's parent indices, and `trip_rel_in`/`trip_rel_out`
are both set to `in_type` — which at that point has already been
reassigned to the forward-half qualifier relation ids. -/
def bothSetup (num_rels : ℕ) (g : ConvInput) : BothEdges :=
  let nQ := g.qualRel.length / 2
  let in_index_qual_ent := g.qualEnt.take nQ
  let in_index_qual_rel := g.qualRel.take nQ
  let out_index_qual_rel := g.qualRel.drop nQ
  let quals_index_in := g.qualParent.take nQ
  let quals_index_out := g.qualParent.drop nQ
  let in_type := in_index_qual_rel
  { inIndexRow := in_index_qual_ent
    inIndexCol := quals_index_in.map (fun p => g.edgeRow.getD p 0)
    outIndexRow := quals_index_in.map (fun p => g.edgeRow.getD p 0)
    outIndexCol := in_index_qual_ent
    inType := in_type
    outType := out_index_qual_rel.map (fun q => q + num_rels)
    bothObjIn := quals_index_in.map (fun p => g.edgeCol.getD p 0)
    bothObjOut := quals_index_out.map (fun p => g.edgeCol.getD p 0)
    tripRelIn := in_type
    tripRelOut := in_type }

/-! ### Top-level model (`hyper_gcn.py`, `HypRelModel`) -/

/-- An entity- or relation-embedding matrix with `m` rows of width `d`. -/
def Emb (m d : ℕ) : Type := Fin m → Fin d → ℚ

/-- The parts of `HypRelModel` that its embedding-refinement stage
(lines 104–116 of `forward`, plus `parallel_forward`) reads: the two
flags, the initial embedding tables, the two encoders (taken as
functions of the propagation tag and the embedding pair, as
`HypRelEncoder.__call__` is), and the parallel-fusion parameters. -/
structure HypRelModel (ne nr d : ℕ) where
  parallel : Bool
  onlyTrips : Bool
  ent_embs : Emb ne d
  rel_embs : Emb nr d
  trip_encoder : String → Emb ne d → Emb nr d → Emb ne d × Emb nr d
  qual_encoder : String → Emb ne d → Emb nr d → Emb ne d × Emb nr d
  ent_parallel_matrix : (Fin d ⊕ Fin d) → Fin d → ℚ
  ent_parallel_drop : Emb ne d → Emb ne d
  ent_parallel_lnorm : Emb ne d → Emb ne d

/-- `torch.matmul(torch.cat((a, b), dim=1), w)`: concatenate two
`ne × d` matrices along the feature axis and multiply by a
`2d × d` matrix. -/
def catMatmul {ne d : ℕ} (a b : Emb ne d)
    (w : (Fin d ⊕ Fin d) → Fin d → ℚ) : Emb ne d :=
  fun i j => ∑ k : Fin d ⊕ Fin d, Sum.elim (a i) (b i) k * w k j

/-- `HypRelModel.parallel_forward` (lines 85–95): run the qualifier
encoder on the entity/relation embeddings it is handed, fuse its
entity output with `trip_ent_out` by concatenation and projection,
then dropout, then layer normalization. -/
def HypRelModel.parallel_forward {ne nr d : ℕ} (m : HypRelModel ne nr d)
    (trip_ent_out : Emb ne d) (ent_embs : Emb ne d) (rel_embs : Emb nr d) :
    Emb ne d × Emb nr d :=
  let xr := m.qual_encoder "qual" ent_embs rel_embs
  let x := catMatmul trip_ent_out xr.1 m.ent_parallel_matrix
  let x := m.ent_parallel_drop x
  let x := m.ent_parallel_lnorm x
  (x, xr.2)

/-- The embedding-refinement stage of `HypRelModel.forward`
(lines 104–116): run the triple encoder on the initial tables; unless
`ONLY-TRIPS`, refine with the qualifier encoder — through
`parallel_forward (x1, init_ent, r1)` when `parallel`, else
sequentially on `(x1, r1)`. -/
def HypRelModel.forwardEnc {ne nr d : ℕ} (m : HypRelModel ne nr d) :
    Emb ne d × Emb nr d :=
  let init_ent := m.ent_embs
  let init_rel := m.rel_embs
  let x1r1 := m.trip_encoder "trip" init_ent init_rel
  if ¬ m.onlyTrips then
    if m.parallel then m.parallel_forward x1r1.1 init_ent x1r1.2
    else m.qual_encoder "qual" x1r1.1 x1r1.2
  else x1r1

/-- The same stage as the claim words it: under the parallel flag, the
qualifier encoder runs on the original (pre-triple-encoder) entity
AND relation embeddings, then concatenation with the triple-encoder
entity output, projection, dropout, layer normalization. -/
def HypRelModel.forwardEncClaim {ne nr d : ℕ} (m : HypRelModel ne nr d) :
    Emb ne d × Emb nr d :=
  let x1r1 := m.trip_encoder "trip" m.ent_embs m.rel_embs
  if ¬ m.onlyTrips then
    if m.parallel then
      let xr := m.qual_encoder "qual" m.ent_embs m.rel_embs
      (m.ent_parallel_lnorm (m.ent_parallel_drop
        (catMatmul x1r1.1 xr.1 m.ent_parallel_matrix)), xr.2)
    else m.qual_encoder "qual" x1r1.1 x1r1.2
  else x1r1

/-- The amended description of the same stage: the qualifier encoder
runs on the original entity embeddings but on the triple-encoder's
relation output `r1`; then concatenation, projection, dropout, layer
normalization. -/
def HypRelModel.forwardEncAmended {ne nr d : ℕ} (m : HypRelModel ne nr d) :
    Emb ne d × Emb nr d :=
  let x1r1 := m.trip_encoder "trip" m.ent_embs m.rel_embs
  let xr := m.qual_encoder "qual" m.ent_embs x1r1.2
  (m.ent_parallel_lnorm (m.ent_parallel_drop
    (catMatmul x1r1.1 xr.1 m.ent_parallel_matrix)), xr.2)

/-! ### Concrete instances used by counterexamples and witnesses -/

/-- A benchmark returning all-zero metrics on every invocation. -/
def seqConst : ℕ → Metrics :=
  fun _ => { hitsAt1 := 0, hitsAt3 := 0, hitsAt5 := 0, hitsAt10 := 0, mrr := 0, mr := 0 }

/-- A benchmark whose MRR readings are `0.5, 0.3, 0.2, 0.2, …` (all
other metrics zero). -/
def seq3 : ℕ → Metrics :=
  fun n =>
    if n = 0 then { hitsAt1 := 0, hitsAt3 := 0, hitsAt5 := 0, hitsAt10 := 0, mrr := mkRat 1 2, mr := 0 }
    else if n = 1 then { hitsAt1 := 0, hitsAt3 := 0, hitsAt5 := 0, hitsAt10 := 0, mrr := mkRat 3 10, mr := 0 }
    else { hitsAt1 := 0, hitsAt3 := 0, hitsAt5 := 0, hitsAt10 := 0, mrr := mkRat 1 5, mr := 0 }

/-- One epoch, `eval_every = 2`: epoch 1 is not a multiple of 2. -/
def pSkip : LoopParams :=
  { epochs := 1, evalEvery := 2, qualifierAware := true, earlyStopping := some 3
    hasScheduler := false, numBatches := 1 }

/-- Ten epochs, evaluation every epoch, early-stopping window 3, a
scheduler configured. -/
def pEarly : LoopParams :=
  { epochs := 10, evalEvery := 1, qualifierAware := true, earlyStopping := some 3
    hasScheduler := true, numBatches := 1 }

/-- A run without `qualifier_aware` and a nonempty batch iterator. -/
def pNoQual : LoopParams :=
  { epochs := 1, evalEvery := 1, qualifierAware := false, earlyStopping := none
    hasScheduler := false, numBatches := 1 }

/-- The state of the `pEarly`/`seq3` run after epochs 1 and 2. -/
def stPre : LoopState :=
  { validAcc := [0, 0], validMrr := [mkRat 1 2, mkRat 3 10], validMr := [0, 0]
    validHits3 := [0, 0], validHits5 := [0, 0], validHits10 := [0, 0]
    gradSteps := 2, schedulerSteps := 2, epochsRun := 2 }

/-- The state of the `pEarly`/`seq3` run when epoch 3 breaks. -/
def stPost : LoopState :=
  { validAcc := [0, 0, 0], validMrr := [mkRat 1 2, mkRat 3 10, mkRat 1 5], validMr := [0, 0, 0]
    validHits3 := [0, 0, 0], validHits5 := [0, 0, 0], validHits10 := [0, 0, 0]
    gradSteps := 3, schedulerSteps := 2, epochsRun := 3 }

/-- The state after epoch 1 of the `pEarly`/`seq3` run. -/
def stOne : LoopState :=
  { validAcc := [0], validMrr := [mkRat 1 2], validMr := [0]
    validHits3 := [0], validHits5 := [0], validHits10 := [0]
    gradSteps := 1, schedulerSteps := 1, epochsRun := 1 }

/-- One edge pair (subject 0, relation 0, object 2; inverse relation
0 + 2) with one qualifier pair (relation 1, entity 1, parent 0), for
`num_rels = 2`. -/
def gBug : ConvInput :=
  { edgeRow := [0, 2], edgeCol := [2, 0], edgeType := [0, 2]
    qualRel := [1, 1], qualEnt := [1, 1], qualParent := [0, 0] }

/-- A one-entity, one-relation, one-dimensional model with the
parallel flag set.  Its triple encoder shifts the relation table by 1
and its qualifier encoder echoes its relation input as entity output,
so the model's output reveals which relation table the qualifier
encoder received; the fusion matrix selects the qualifier-encoder
half of the concatenation. -/
def mC2 : HypRelModel 1 1 1 :=
  { parallel := true
    onlyTrips := false
    ent_embs := fun _ _ => 0
    rel_embs := fun _ _ => 5
    trip_encoder := fun _ x r => (x, fun i j => r i j + 1)
    qual_encoder := fun _ _ r => (fun i j => r i j, r)
    ent_parallel_matrix := fun k _ => Sum.elim (fun _ => (0 : ℚ)) (fun _ => 1) k
    ent_parallel_drop := id
    ent_parallel_lnorm := id }
/-! ### Theorems -/

/-- C5: `comp_func` fails with `UnsupportedOperatorError` exactly on
selectors other than the four supported names `corr` (circular
correlation), `sub` (subtraction), `mult` (multiplication) and
`rotate`; on those four it returns normally. -/
theorem comp_func_unsupported_iff (opn : String) (e r : List ℚ) :
    (comp_func opn e r = Except.error CompError.unsupportedOperator ↔
      opn ∉ (["corr", "sub", "mult", "rotate"] : List String)) ∧
    ((∃ v, comp_func opn e r = Except.ok v) ↔
      opn ∈ (["corr", "sub", "mult", "rotate"] : List String)) := by
  unfold comp_func
  split_ifs with h1 h2 h3 h4 <;> simp_all

/-- C3 (supporting evidence): on a concrete one-triple, one-qualifier
graph, the `both` setup carries `both_obj_in`/`both_obj_out` equal to
the object id of the originating triple at the recorded parent index
(entity 2), as claimed — but `trip_rel_in`/`trip_rel_out` carry the
qualifier relation id 1, not the originating triple's relation id
`edge_type[0] = 0` that the claim (and the code's own `combine_quals_trips`
docstring, which calls this input `r`) requires. -/
theorem both_setup_trip_rel_mismatch :
    (bothSetup 2 gBug).bothObjIn = [gBug.edgeCol.getD 0 0] ∧
    (bothSetup 2 gBug).bothObjOut = [gBug.edgeCol.getD 0 0] ∧
    (bothSetup 2 gBug).inType = [1] ∧
    (bothSetup 2 gBug).outType = [3] ∧
    (bothSetup 2 gBug).tripRelIn = [1] ∧
    (bothSetup 2 gBug).tripRelOut = [1] ∧
    gBug.edgeType.getD 0 0 = 0 ∧
    (bothSetup 2 gBug).tripRelIn ≠ [gBug.edgeType.getD 0 0] := by
  decide

/-- C8: with dropout disabled (`training = false`), the combine stage
of the convolution forward is independent of the dropout masks — two
calls with identical inputs agree — and equals the sum of the
forward, inverse and self-loop contributions each weighted 1/3,
passed through the output normalization and the nonlinearity. -/
theorem conv_combine_eval_deterministic (gcn_drop : ℚ)
    (mIn mOut mIn' mOut' : ℕ → Bool) (bn act : (ℕ → ℚ) → (ℕ → ℚ))
    (in_res out_res loop_res : ℕ → ℚ) :
    conv_combine gcn_drop false mIn mOut bn act in_res out_res loop_res =
      conv_combine gcn_drop false mIn' mOut' bn act in_res out_res loop_res ∧
    conv_combine gcn_drop false mIn mOut bn act in_res out_res loop_res =
      act (bn (fun i => (in_res i + out_res i + loop_res i) * (1/3))) := by
  have hfun : (fun i => in_res i * (1/3) + out_res i * (1/3) + loop_res i * (1/3)) =
      (fun i => (in_res i + out_res i + loop_res i) * ((1 : ℚ)/3)) := by
    funext i; ring
  constructor
  · rfl
  · unfold conv_combine dropoutQ
    simp only [Bool.false_eq_true, if_false]
    rw [hfun]

/-- C2 (counterexample): on the concrete model `mC2`, whose qualifier
encoder is sensitive to its relation input, the code's forward pass
(which hands `parallel_forward` the triple-encoder relation output
`r1`) differs from the claimed forward pass (qualifier encoder on the
original relation embeddings). -/
theorem parallel_forward_uses_trip_rel_output :
    mC2.forwardEnc.1 0 0 ≠ mC2.forwardEncClaim.1 0 0 := by
  have h1 : mC2.forwardEnc.1 0 0 = 6 := by
    simp [mC2, HypRelModel.forwardEnc, HypRelModel.parallel_forward, catMatmul,
      Fintype.sum_sum_type]
    norm_num
  have h2 : mC2.forwardEncClaim.1 0 0 = 5 := by
    simp [mC2, HypRelModel.forwardEncClaim, catMatmul, Fintype.sum_sum_type]
  rw [h1, h2]
  norm_num

/-- C2 (amended): when the parallel flag is set and `ONLY-TRIPS` is
not, the forward pass runs the qualifier encoder on the original
entity embeddings and the triple encoder's relation output `r1`,
concatenates the triple-encoder entity output with the qualifier
encoder's entity output along the feature axis, projects through the
learned fusion matrix, and applies dropout then layer
normalization. -/
theorem forward_parallel_fusion_amended {ne nr d : ℕ} (m : HypRelModel ne nr d)
    (hp : m.parallel = true) (ht : m.onlyTrips = false) :
    m.forwardEnc = m.forwardEncAmended := by
  unfold HypRelModel.forwardEnc HypRelModel.forwardEncAmended HypRelModel.parallel_forward
  rw [hp, ht]
  simp

/-- C2 witness: the amended description agrees with the code on the
concrete model `mC2`. -/
theorem forward_parallel_fusion_amended_witness :
    mC2.forwardEnc = mC2.forwardEncAmended :=
  forward_parallel_fusion_amended mC2 rfl rfl

/-- C4: in qualifier aggregation toward a triple's subject (the non-`out`
branch of `combine_quals`), each (qualifier entity, qualifier relation)
pair is composed by the composition operator `φ` and the compositions
sharing a parent-triple index `t` are summed: row `t` of the result is
the sum of the per-qualifier compositions with index `t`, and a triple
with no qualifiers gets exactly zero. -/
theorem combine_quals_pools_per_triple {M : Type} [AddCommMonoid M] (φ : M → M → M)
    (x_j ent_embed rel_embed : ℕ → M) (ent_index rel_index quals_index : ℕ → ℕ)
    (nQuals nEdges t : ℕ) (ht : t < nEdges) :
    (combine_quals φ "in" x_j ent_embed rel_embed ent_index rel_index quals_index
        nQuals nEdges t =
      ∑ i ∈ (Finset.range nQuals).filter (fun i => quals_index i = t),
        φ (ent_embed (ent_index i)) (rel_embed (rel_index i))) ∧
    ((∀ i < nQuals, quals_index i ≠ t) →
      combine_quals φ "in" x_j ent_embed rel_embed ent_index rel_index quals_index
        nQuals nEdges t = 0) := by
  have hmode : ("in" : String) ≠ "out" := by decide
  have hval : combine_quals φ "in" x_j ent_embed rel_embed ent_index rel_index quals_index
      nQuals nEdges t =
      ∑ i ∈ Finset.range nQuals, if quals_index i = t
        then φ (ent_embed (ent_index i)) (rel_embed (rel_index i)) else 0 := by
    unfold combine_quals scatter_add
    rw [if_neg hmode, if_pos ht]
  constructor
  · rw [hval, Finset.sum_filter]
  · intro h
    rw [hval]
    apply Finset.sum_eq_zero
    intro i hi
    rw [if_neg (h i (Finset.mem_range.mp hi))]

/-- C4 witness: a concrete pooling (in the additive monoid ℕ) with two
qualifiers, both attached to parent triple 0, composed by
multiplication: `1·3 + 2·4 = 11`. -/
theorem combine_quals_pools_per_triple_witness :
    combine_quals (fun a b : ℕ => a * b) "in" (fun _ => 0) (fun i => i + 1)
      (fun i => i + 2) (fun i => i) (fun i => i + 1) (fun _ => 0) 2 1 0 = 11 := by
  have h := (combine_quals_pools_per_triple (fun a b : ℕ => a * b) (fun _ => 0)
    (fun i => i + 1) (fun i => i + 2) (fun i => i) (fun i => i + 1) (fun _ => 0)
    2 1 0 (by decide)).1
  rw [h]
  decide

/-- C6: the normalization helper's output weights are all finite (the
value `fin q` denotes `√q`; no `inf` — and no `NaN`, the remap runs
before any multiplication), and on a graph where every entity has
exactly one edge with it as head every returned weight equals 1.0. -/
theorem compute_norm_finite_and_unit (row col : List ℕ) (num_ent : ℕ)
    (hrow : ∀ v ∈ row, v < num_ent) (hcol : ∀ v ∈ col, v < num_ent) :
    (∀ w ∈ compute_norm row col num_ent, ∃ q, w = NormVal.fin q) ∧
    ((∀ v, v < num_ent → row.count v = 1) →
      ∀ w ∈ compute_norm row col num_ent, w = NormVal.fin 1) := by
  have hfix : ∀ d : ℕ, ∃ q, remapInf (powNegHalf d) = NormVal.fin q := by
    intro d
    unfold powNegHalf remapInf
    by_cases hd : d = 0
    · exact ⟨0, by simp [hd]⟩
    · exact ⟨1 / (d : ℚ), by simp [hd]⟩
  constructor
  · intro w hw
    unfold compute_norm at hw
    simp only [List.mem_map] at hw
    obtain ⟨rc, _, rfl⟩ := hw
    obtain ⟨q1, hq1⟩ := hfix (if rc.1 < num_ent then row.count rc.1 else 0)
    obtain ⟨q2, hq2⟩ := hfix (if rc.2 < num_ent then row.count rc.2 else 0)
    exact ⟨q1 * 1 * q2, by rw [hq1, hq2]; rfl⟩
  · intro hdeg w hw
    unfold compute_norm at hw
    simp only [List.mem_map] at hw
    obtain ⟨rc, hmem, rfl⟩ := hw
    have h1 : rc.1 ∈ row := (List.of_mem_zip hmem).1
    have h2 : rc.2 ∈ col := (List.of_mem_zip hmem).2
    have hd1 : (if rc.1 < num_ent then row.count rc.1 else 0) = 1 := by
      rw [if_pos (hrow _ h1)]; exact hdeg _ (hrow _ h1)
    have hd2 : (if rc.2 < num_ent then row.count rc.2 else 0) = 1 := by
      rw [if_pos (hcol _ h2)]; exact hdeg _ (hcol _ h2)
    show NormVal.mul (NormVal.mul (remapInf (powNegHalf _)) (.fin 1)) (remapInf (powNegHalf _)) = _
    rw [hd1, hd2]
    unfold powNegHalf remapInf NormVal.mul
    norm_num

/-- C6 witness: a two-entity cycle, in which both entities have exactly
one incoming edge; the first returned weight is 1.0. -/
theorem compute_norm_finite_and_unit_witness :
    (compute_norm [0, 1] [1, 0] 2).getD 0 NormVal.inf = NormVal.fin 1 := by
  have h := (compute_norm_finite_and_unit [0, 1] [1, 0] 2 (by decide) (by decide)).2
    (by decide)
  have hmem : (compute_norm [0, 1] [1, 0] 2).getD 0 NormVal.inf ∈
      compute_norm [0, 1] [1, 0] 2 := by
    have hlist : compute_norm [0, 1] [1, 0] 2 =
        [NormVal.mul (NormVal.mul (remapInf (powNegHalf 1)) (.fin 1)) (remapInf (powNegHalf 1)),
         NormVal.mul (NormVal.mul (remapInf (powNegHalf 1)) (.fin 1)) (remapInf (powNegHalf 1))] :=
      rfl
    rw [hlist]
    simp
  exact h _ hmem

/-- Helper: the fields of `schedStep` other than the scheduler counter
are untouched. -/
theorem schedStep_validAcc (b : Bool) (st : LoopState) :
    (schedStep b st).validAcc = st.validAcc := by
  unfold schedStep; split <;> rfl

theorem schedStep_validMrr (b : Bool) (st : LoopState) :
    (schedStep b st).validMrr = st.validMrr := by
  unfold schedStep; split <;> rfl

theorem schedStep_validMr (b : Bool) (st : LoopState) :
    (schedStep b st).validMr = st.validMr := by
  unfold schedStep; split <;> rfl

theorem schedStep_validHits3 (b : Bool) (st : LoopState) :
    (schedStep b st).validHits3 = st.validHits3 := by
  unfold schedStep; split <;> rfl

theorem schedStep_validHits5 (b : Bool) (st : LoopState) :
    (schedStep b st).validHits5 = st.validHits5 := by
  unfold schedStep; split <;> rfl

theorem schedStep_validHits10 (b : Bool) (st : LoopState) :
    (schedStep b st).validHits10 = st.validHits10 := by
  unfold schedStep; split <;> rfl

/-- C1 (counterexample): with `eval_every = 2` and a single epoch, the
batch loop of epoch 1 runs but no validation-history entry is produced
— epoch 1 is evaluated only when `eval_every` divides 1, because the
guard is `e % eval_every == 0 and e >= 1` and `e >= 1` always holds. -/
theorem eval_skips_epoch_one :
    training_loop_gcn pSkip seqConst =
      Except.ok { initState with gradSteps := 1, epochsRun := 1 } ∧
    ({ initState with gradSteps := 1, epochsRun := 1 } : LoopState).validMrr = [] ∧
    pSkip.evalEvery = 2 ∧ 1 ≤ pSkip.epochs :=
  ⟨rfl, rfl, rfl, by decide⟩

/-- C1 (amended): in every epoch `e ≥ 1` that completes, validation
runs exactly when `e % eval_every = 0`: in that case the benchmark is
invoked (under disabled gradient tracking) and hits@1/3/5/10, MRR and
MR are appended to their histories; otherwise all six histories are
unchanged.  Epoch 1 produces an entry only when `eval_every` divides 1. -/
theorem eval_exactly_on_eval_every_epochs (p : LoopParams) (seq : ℕ → Metrics)
    (e : ℕ) (st st' : LoopState) (brk : Bool) (he : 1 ≤ e)
    (h : runEpoch p seq e st = Except.ok (st', brk)) :
    (e % p.evalEvery = 0 →
      st'.validAcc = st.validAcc ++ [(seq st.validMrr.length).hitsAt1] ∧
      st'.validMrr = st.validMrr ++ [(seq st.validMrr.length).mrr] ∧
      st'.validMr = st.validMr ++ [(seq st.validMrr.length).mr] ∧
      st'.validHits3 = st.validHits3 ++ [(seq st.validMrr.length).hitsAt3] ∧
      st'.validHits5 = st.validHits5 ++ [(seq st.validMrr.length).hitsAt5] ∧
      st'.validHits10 = st.validHits10 ++ [(seq st.validMrr.length).hitsAt10]) ∧
    (¬ e % p.evalEvery = 0 →
      st'.validAcc = st.validAcc ∧ st'.validMrr = st.validMrr ∧
      st'.validMr = st.validMr ∧ st'.validHits3 = st.validHits3 ∧
      st'.validHits5 = st.validHits5 ∧ st'.validHits10 = st.validHits10) := by
  unfold runEpoch at h
  split at h
  · exact absurd h (by simp)
  · simp only [Except.ok.injEq] at h
    unfold epochTail at h
    split at h
    · next hA =>
      refine ⟨fun _ => ?_, fun hne => absurd hA.1 hne⟩
      split at h
      · simp only [Prod.mk.injEq] at h
        obtain ⟨hst, -⟩ := h
        subst hst
        exact ⟨rfl, rfl, rfl, rfl, rfl, rfl⟩
      · simp only [Prod.mk.injEq] at h
        obtain ⟨hst, -⟩ := h
        subst hst
        exact ⟨by rw [schedStep_validAcc]; rfl, by rw [schedStep_validMrr]; rfl,
          by rw [schedStep_validMr]; rfl, by rw [schedStep_validHits3]; rfl,
          by rw [schedStep_validHits5]; rfl, by rw [schedStep_validHits10]; rfl⟩
    · next hA =>
      have hne : ¬ e % p.evalEvery = 0 := fun hev => hA ⟨hev, he⟩
      refine ⟨fun hev => absurd hev hne, fun _ => ?_⟩
      simp only [Prod.mk.injEq] at h
      obtain ⟨hst, -⟩ := h
      subst hst
      exact ⟨by rw [schedStep_validAcc]; rfl, by rw [schedStep_validMrr]; rfl,
        by rw [schedStep_validMr]; rfl, by rw [schedStep_validHits3]; rfl,
        by rw [schedStep_validHits5]; rfl, by rw [schedStep_validHits10]; rfl⟩

/-- C1 witness: epoch 1 of the `pEarly`/`seq3` run (where
`eval_every = 1` divides 1) appends the first MRR reading. -/
theorem eval_exactly_on_eval_every_epochs_witness :
    stOne.validMrr = initState.validMrr ++ [(seq3 initState.validMrr.length).mrr] :=
  ((eval_exactly_on_eval_every_epochs pEarly seq3 1 initState stOne false
    (by decide) rfl).1 (by decide)).2.1

/-- C7: (general part) an epoch breaks (`brk = true`) exactly when it
is an evaluation epoch and, on the just-updated MRR history, the
window test holds: the history has at least `early_stopping` entries
and the first entry of the last-`early_stopping` window attains its
maximum (`np.argmax` of the window is 0 — no improvement since);
(concrete part) feeding the MRR sequence 0.5, 0.3, 0.2 with
`early_stopping = 3` and `eval_every = 1` terminates the loop normally
after the third evaluation, with three epochs run and the partial
histories returned. -/
theorem early_stopping_iff_window_max_first :
    (∀ (p : LoopParams) (seq : ℕ → Metrics) (e : ℕ) (st st' : LoopState) (brk : Bool),
      runEpoch p seq e st = Except.ok (st', brk) →
      (brk = true ↔ ((e % p.evalEvery = 0 ∧ 1 ≤ e) ∧ ∃ es,
        p.earlyStopping = some es ∧ es ≤ st'.validMrr.length ∧
        argmaxFirst (lastSlice es st'.validMrr) = 0))) ∧
    (training_loop_gcn pEarly seq3).map (fun st => (st.epochsRun, st.validMrr)) =
      Except.ok (3, [mkRat 1 2, mkRat 3 10, mkRat 1 5]) := by
  constructor
  · intro p seq e st st' brk h
    unfold runEpoch at h
    split at h
    · exact absurd h (by simp)
    · simp only [Except.ok.injEq] at h
      unfold epochTail at h
      split at h
      · next hA =>
        split at h
        · next hB =>
          simp only [Prod.mk.injEq] at h
          obtain ⟨hst, hbrk⟩ := h
          subst hst
          subst hbrk
          refine ⟨fun _ => ⟨hA, ?_⟩, fun _ => rfl⟩
          unfold stopCheck at hB
          cases hes : p.earlyStopping with
          | none => rw [hes] at hB; exact absurd hB (by simp)
          | some es =>
            rw [hes] at hB
            exact ⟨es, rfl, of_decide_eq_true hB⟩
        · next hB =>
          simp only [Prod.mk.injEq] at h
          obtain ⟨hst, hbrk⟩ := h
          subst hst
          subst hbrk
          constructor
          · intro hfalse; exact absurd hfalse (by simp)
          · rintro ⟨-, es, hes, hlen, harg⟩
            exfalso
            apply hB
            unfold stopCheck
            rw [hes]
            rw [schedStep_validMrr] at hlen harg
            exact decide_eq_true ⟨hlen, harg⟩
      · next hA =>
        simp only [Prod.mk.injEq] at h
        obtain ⟨hst, hbrk⟩ := h
        subst hst
        subst hbrk
        constructor
        · intro hfalse; exact absurd hfalse (by simp)
        · rintro ⟨hA', -⟩; exact absurd hA' hA
  · rfl

/-- C7 witness: at epoch 3 of the concrete run, the break is reported
exactly because the window condition holds on the updated history. -/
theorem early_stopping_iff_window_max_first_witness :
    (3 % pEarly.evalEvery = 0 ∧ 1 ≤ 3) ∧ ∃ es,
      pEarly.earlyStopping = some es ∧ es ≤ stPost.validMrr.length ∧
      argmaxFirst (lastSlice es stPost.validMrr) = 0 :=
  (early_stopping_iff_window_max_first.1 pEarly seq3 3 stPre stPost true rfl).mp rfl

/-- C9 (counterexample): in the concrete early-stopping run a scheduler
is configured and three epochs run, but the scheduler is stepped only
twice — the `break` of the early-stopping epoch skips lines 142–143,
so that epoch gets no scheduler step. -/
theorem scheduler_skipped_on_early_stop :
    pEarly.hasScheduler = true ∧
    (training_loop_gcn pEarly seq3).map (fun st => (st.epochsRun, st.schedulerSteps)) =
      Except.ok (3, 2) :=
  ⟨rfl, rfl⟩

/-- Helper: `schedStep` adds one to the scheduler counter exactly when
a scheduler is configured. -/
theorem schedStep_schedulerSteps (b : Bool) (st : LoopState) :
    (schedStep b st).schedulerSteps =
      st.schedulerSteps + (if b = true then 1 else 0) := by
  unfold schedStep
  split <;> simp

/-- C9 (amended): a configured scheduler is stepped exactly once per
epoch that completes without triggering early stopping; the epoch on
which early stopping breaks the loop does not step the scheduler. -/
theorem scheduler_step_per_epoch_amended (p : LoopParams) (seq : ℕ → Metrics)
    (e : ℕ) (st st' : LoopState) (brk : Bool)
    (h : runEpoch p seq e st = Except.ok (st', brk)) :
    st'.schedulerSteps = st.schedulerSteps +
      (if p.hasScheduler = true ∧ brk = false then 1 else 0) := by
  unfold runEpoch at h
  split at h
  · exact absurd h (by simp)
  · simp only [Except.ok.injEq] at h
    unfold epochTail at h
    split at h
    · split at h
      · simp only [Prod.mk.injEq] at h
        obtain ⟨hst, hbrk⟩ := h
        subst hst
        subst hbrk
        simp [appendMetrics, afterBatches]
      · simp only [Prod.mk.injEq] at h
        obtain ⟨hst, hbrk⟩ := h
        subst hst
        subst hbrk
        rw [schedStep_schedulerSteps]
        simp [appendMetrics, afterBatches]
    · simp only [Prod.mk.injEq] at h
      obtain ⟨hst, hbrk⟩ := h
      subst hst
      subst hbrk
      rw [schedStep_schedulerSteps]
      simp [afterBatches]

/-- C9 witness: the break epoch of the concrete run leaves the
scheduler-step counter unchanged. -/
theorem scheduler_step_per_epoch_amended_witness :
    stPost.schedulerSteps = stPre.schedulerSteps +
      (if pEarly.hasScheduler = true ∧ (true = false) then 1 else 0) :=
  scheduler_step_per_epoch_amended pEarly seq3 3 stPre stPost true rfl

/-- Helper: with `qualifier_aware` the batch loop always completes,
adding one optimizer step per batch. -/
theorem runBatches_qual_aware (n : ℕ) : ∀ g, runBatches true n g = Except.ok (g + n) := by
  induction n with
  | zero => intro g; rfl
  | succ k ih =>
      intro g
      show runBatches true k (g + 1) = Except.ok (g + (k + 1))
      rw [ih (g + 1)]
      congr 1
      omega

/-- Helper: with `qualifier_aware` every epoch returns normally. -/
theorem runEpoch_qual_aware (p : LoopParams) (hqa : p.qualifierAware = true)
    (seq : ℕ → Metrics) (e : ℕ) (st : LoopState) :
    ∃ st' brk, runEpoch p seq e st = Except.ok (st', brk) := by
  unfold runEpoch
  rw [hqa, runBatches_qual_aware]
  exact ⟨_, _, rfl⟩

/-- Helper: with `qualifier_aware` the whole loop returns normally. -/
theorem loopGo_qual_aware (p : LoopParams) (hqa : p.qualifierAware = true)
    (seq : ℕ → Metrics) :
    ∀ (fuel e : ℕ) (st : LoopState), ∃ st'', loopGo p seq fuel e st = Except.ok st'' := by
  intro fuel
  induction fuel with
  | zero => intro e st; exact ⟨st, rfl⟩
  | succ k ih =>
      intro e st
      obtain ⟨st', brk, hre⟩ := runEpoch_qual_aware p hqa seq e st
      unfold loopGo
      rw [hre]
      cases brk with
      | true => exact ⟨st', rfl⟩
      | false => exact ih (e + 1) st'

/-- C10: with `qualifier_aware = False` and a nonempty batch iterator,
the first forward call of epoch 1 reads the never-assigned local
`_quals` and the run aborts with an undefined-name error before any
optimizer step completes; with `qualifier_aware = True` the loop never
hits this error and returns normally. -/
theorem loop_requires_qualifier_aware (p : LoopParams) (seq : ℕ → Metrics) :
    (p.qualifierAware = false → 1 ≤ p.numBatches → 1 ≤ p.epochs →
      training_loop_gcn p seq = Except.error (LoopError.unboundLocal 0)) ∧
    (p.qualifierAware = true → ∃ st, training_loop_gcn p seq = Except.ok st) := by
  constructor
  · intro hqa hnb hep
    obtain ⟨k, hk⟩ : ∃ k, p.epochs = k + 1 := ⟨p.epochs - 1, by omega⟩
    obtain ⟨m, hm⟩ : ∃ m, p.numBatches = m + 1 := ⟨p.numBatches - 1, by omega⟩
    unfold training_loop_gcn
    rw [hk]
    have hre : runEpoch p seq 1 initState = Except.error (LoopError.unboundLocal 0) := by
      unfold runEpoch
      rw [hqa, hm]
      rfl
    unfold loopGo
    rw [hre]
  · intro hqa
    exact loopGo_qual_aware p hqa seq p.epochs 1 initState

/-- C10 witness: the concrete `qualifier_aware = False` run aborts with
the undefined-name error, zero optimizer steps completed. -/
theorem loop_requires_qualifier_aware_witness :
    training_loop_gcn pNoQual seqConst = Except.error (LoopError.unboundLocal 0) :=
  (loop_requires_qualifier_aware pNoQual seqConst).1 rfl (by decide) (by decide)
